import Mathlib

/-!
Verification development for the BRAINSKILL checkers server
(Brazilian draughts, 8x8).  The rule engine (gameLogic.js) and the
relevant parts of the websocket move handler and matchmaking route
(server.js) are shallowly embedded below; cell markers, function names
and control flow follow the source.
-/

set_option maxRecDepth 4000

/-- Cell markers of the 8x8 board, mirroring the PIECE_TYPES strings of
gameLogic.js: `b` black pawn, `w` white pawn, `B` black king,
`W` white king, `e` empty. -/
inductive Cell
  | b
  | w
  | B
  | W
  | e
deriving DecidableEq, Repr

/-- Player colors, mirroring the 'black' / 'white' strings of the source. -/
inductive Color
  | black
  | white
deriving DecidableEq, Repr

/-- A board is a total assignment of cells to integer coordinates; the
source only ever reads coordinates inside [0,8) x [0,8) (every access in
gameLogic.js is guarded by `isWithinBoard` or by the surrounding loop
bounds), so values outside that square are irrelevant ghost data. -/
def Board := Int → Int → Cell

/-- Mirrors `isWithinBoard(row, col)` of gameLogic.js. -/
def isWithinBoard (r c : Int) : Bool :=
  decide (0 ≤ r ∧ r < 8 ∧ 0 ≤ c ∧ c < 8)

/-- Board read, `board[r][c]` in the source. -/
def getCell (bd : Board) (r c : Int) : Cell := bd r c

/-- Board write, `board[r][c] = v` in the source (on a copied board). -/
def setCell (bd : Board) (p : Int × Int) (v : Cell) : Board :=
  fun r c => if r = p.1 ∧ c = p.2 then v else bd r c

/-- The 64 squares of the board in the row-major order in which every
`for (r) for (c)` loop of gameLogic.js visits them. -/
def allSquares : List (Int × Int) :=
  (List.range 8).flatMap (fun r => (List.range 8).map (fun c => (Int.ofNat r, Int.ofNat c)))

/-- Builds a concrete board from an association list, defaulting to empty. -/
def boardOf (l : List ((Int × Int) × Cell)) : Board :=
  fun r c => (((l.find? (fun p => decide (p.1 = (r, c)))).map (fun p => p.2)).getD Cell.e)

/-- Mirrors `isPlayerPiece(piece, playerColor)` of gameLogic.js. -/
def isPlayerPiece (piece : Cell) (playerColor : Color) : Bool :=
  match playerColor with
  | Color.black => decide (piece = Cell.b ∨ piece = Cell.B)
  | Color.white => decide (piece = Cell.w ∨ piece = Cell.W)

/-- Mirrors `createInitialBoard()` of gameLogic.js: the literal 8x8 matrix,
read back through in-bounds lookup. -/
def initialRows : List (List Cell) :=
  [[Cell.e, Cell.b, Cell.e, Cell.b, Cell.e, Cell.b, Cell.e, Cell.b],
   [Cell.b, Cell.e, Cell.b, Cell.e, Cell.b, Cell.e, Cell.b, Cell.e],
   [Cell.e, Cell.b, Cell.e, Cell.b, Cell.e, Cell.b, Cell.e, Cell.b],
   [Cell.e, Cell.e, Cell.e, Cell.e, Cell.e, Cell.e, Cell.e, Cell.e],
   [Cell.e, Cell.e, Cell.e, Cell.e, Cell.e, Cell.e, Cell.e, Cell.e],
   [Cell.w, Cell.e, Cell.w, Cell.e, Cell.w, Cell.e, Cell.w, Cell.e],
   [Cell.e, Cell.w, Cell.e, Cell.w, Cell.e, Cell.w, Cell.e, Cell.w],
   [Cell.w, Cell.e, Cell.w, Cell.e, Cell.w, Cell.e, Cell.w, Cell.e]]

/-- Initial board as a `Board` value. -/
def createInitialBoard : Board :=
  fun r c =>
    if isWithinBoard r c then ((initialRows.getD r.toNat []).getD c.toNat Cell.e)
    else Cell.e

/-- The four diagonal directions, in the order of gameLogic.js. -/
def directions : List (Int × Int) := [(-1, -1), (-1, 1), (1, -1), (1, 1)]

/-- One potential capture: captured square and landing square, mirroring the
`{ capR, capC, landR, landC }` records of `findCaptureSequencesForPiece`. -/
structure Capture where
  capR : Int
  capC : Int
  landR : Int
  landC : Int
deriving DecidableEq, Repr

/-- A capture sequence `{ path, capturedPieces }` as produced by the search. -/
structure CapSeq where
  path : List (Int × Int)
  capturedPieces : List (Int × Int)
deriving DecidableEq, Repr

/-- King-branch scan of `findCaptureSequencesForPiece` (one direction):
the `for (i = 1; i < 8; i++)` loop with its mutable `pathIsClear` flag,
written as recursion on the remaining iteration count (`steps` starts at 7,
`i` at 1, `clear` at true).  The loop `break`s when the probed cell or the
cell just beyond it leaves the board; a non-empty probed cell yields a
capture only while the path so far was clear, and always blocks the path
for the rest of the scan. -/
def kingScanAux (bd : Board) (myColor : Color) (r c dr dc : Int) :
    Nat → Int → Bool → List Capture
  | 0, _, _ => []
  | steps + 1, i, clear =>
    let nextR := r + i * dr
    let nextC := c + i * dc
    let landR := nextR + dr
    let landC := nextC + dc
    if ¬ (isWithinBoard nextR nextC = true ∧ isWithinBoard landR landC = true) then []
    else
      let nextCell := getCell bd nextR nextC
      if nextCell ≠ Cell.e then
        (if clear = true ∧ isPlayerPiece nextCell myColor = false ∧
            getCell bd landR landC = Cell.e then
          [⟨nextR, nextC, landR, landC⟩]
        else []) ++ kingScanAux bd myColor r c dr dc steps (i + 1) false
      else kingScanAux bd myColor r c dr dc steps (i + 1) clear

/-- Pawn branch of `findCaptureSequencesForPiece` for one direction. -/
def pawnCapsDir (bd : Board) (myColor : Color) (r c dr dc : Int) : List Capture :=
  let capR := r + dr
  let capC := c + dc
  let landR := r + 2 * dr
  let landC := c + 2 * dc
  if isWithinBoard landR landC = true ∧ getCell bd landR landC = Cell.e then
    let capturedPiece := getCell bd capR capC
    if capturedPiece ≠ Cell.e ∧ isPlayerPiece capturedPiece myColor = false then
      [⟨capR, capC, landR, landC⟩]
    else []
  else []

/-- Mirrors the recursive `findCaptureSequencesForPiece(board, r, c, piece,
currentPath, capturedSoFar)` of gameLogic.js.  The
`for (const { capR, capC, landR, landC } of potentialCaptures)` loop
(which skips a capture already in `capturedSoFar`, otherwise plays it on a
copied board and recurses, a branch with no deeper sequence contributing
the current chain as a leaf) appends its contributions in order, i.e. it
is a `flatMap` over the gathered potential captures.  The JS recursion
needs no fuel: each recursive call appends one more captured square, the
duplicate guard keeps captured squares pairwise distinct, and every
captured square is an in-board square that held an enemy piece on the
original board, so the depth is bounded by 63; the explicit `fuel` (64 at
every top-level call, from `findAllCaptureSequences`) therefore never
reaches 0 on a reachable call, and the fuel-0 branch returns what the JS
code would return at such a (dead) point anyway. -/
def findCaptureSequencesForPiece (fuel : Nat) (bd : Board) (r c : Int) (piece : Cell)
    (path captured : List (Int × Int)) : List CapSeq :=
  match fuel with
  | 0 => if captured.length > 0 then [⟨path, captured⟩] else []
  | fuel' + 1 =>
    let isKing := piece = Cell.B ∨ piece = Cell.W
    let myColor := if isPlayerPiece piece Color.white then Color.white else Color.black
    let caps := directions.flatMap (fun d =>
      if isKing then kingScanAux bd myColor r c d.1 d.2 7 1 true
      else pawnCapsDir bd myColor r c d.1 d.2)
    let sequences := caps.flatMap (fun cap =>
      if captured.contains (cap.capR, cap.capC) then []
      else
        let tb := setCell (setCell (setCell bd (cap.landR, cap.landC) piece)
          (r, c) Cell.e) (cap.capR, cap.capC) Cell.e
        let newPath := path ++ [(cap.landR, cap.landC)]
        let newCaptured := captured ++ [(cap.capR, cap.capC)]
        let deeper := findCaptureSequencesForPiece fuel' tb cap.landR cap.landC piece
          newPath newCaptured
        if deeper.isEmpty then [⟨newPath, newCaptured⟩] else deeper)
    if sequences.isEmpty ∧ captured.length > 0 then [⟨path, captured⟩] else sequences

/-- All capture sequences gathered piece by piece, in the order the nested
`for (r) for (c)` loops of `findAllCaptureSequences` produce them. -/
def candidateSeqs (bd : Board) (color : Color) : List CapSeq :=
  allSquares.flatMap (fun p =>
    let piece := getCell bd p.1 p.2
    if isPlayerPiece piece color then
      findCaptureSequencesForPiece 64 bd p.1 p.2 piece [p] []
    else [])

/-- The `maxCaptures` / `allSequences` accumulator loop of
`findAllCaptureSequences` (a new maximum resets the list, an equal count
appends, a smaller or zero count is dropped). -/
def collectSequences : List CapSeq → Nat → List CapSeq → Nat × List CapSeq
  | [], maxC, acc => (maxC, acc)
  | s :: rest, maxC, acc =>
    let n := s.capturedPieces.length
    if n > 0 then
      if n > maxC then collectSequences rest n [s]
      else if n = maxC then collectSequences rest maxC (acc ++ [s])
      else collectSequences rest maxC acc
    else collectSequences rest maxC acc

/-- Mirrors `findAllCaptureSequences(board, playerColor)` of gameLogic.js,
including the final majority filter. -/
def findAllCaptureSequences (bd : Board) (color : Color) : List CapSeq :=
  let res := collectSequences (candidateSeqs bd color) 0 []
  res.2.filter (fun s => decide (s.capturedPieces.length = res.1))

/-- A simple (non-capturing) move `{ from, to }`. -/
structure SMove where
  fromPos : Int × Int
  toPos : Int × Int
deriving DecidableEq, Repr

/-- King slide of `findSimpleMoves` for one direction: the
`for (i = 1; i < 8; i++)` loop that breaks at the first blocked or
off-board cell (`steps` starts at 7, `i` at 1). -/
def kingSlide (bd : Board) (r c dr dc : Int) : Nat → Int → List SMove
  | 0, _ => []
  | steps + 1, i =>
    let nextR := r + i * dr
    let nextC := c + i * dc
    if ¬ (isWithinBoard nextR nextC = true ∧ getCell bd nextR nextC = Cell.e) then []
    else ⟨(r, c), (nextR, nextC)⟩ :: kingSlide bd r c dr dc steps (i + 1)

/-- Mirrors `findSimpleMoves(board, playerColor)` of gameLogic.js. -/
def findSimpleMoves (bd : Board) (color : Color) : List SMove :=
  let forwardDir : Int := if color = Color.white then -1 else 1
  allSquares.flatMap (fun p =>
    let piece := getCell bd p.1 p.2
    if ¬ isPlayerPiece piece color then []
    else if piece = Cell.B ∨ piece = Cell.W then
      directions.flatMap (fun d => kingSlide bd p.1 p.2 d.1 d.2 7 1)
    else
      [(forwardDir, -1), (forwardDir, 1)].flatMap (fun d =>
        let nextR := p.1 + d.1
        let nextC := p.2 + d.2
        if isWithinBoard nextR nextC = true ∧ getCell bd nextR nextC = Cell.e then
          [⟨(p.1, p.2), (nextR, nextC)⟩]
        else []))

/-- A move object `{ from, to, capturedPieces }` as consumed by `applyMove`
(`from` is a Lean keyword, hence the `fromPos` / `toPos` field names). -/
structure Move where
  fromPos : Int × Int
  toPos : Int × Int
  capturedPieces : List (Int × Int)
deriving DecidableEq, Repr

/-- Mirrors `applyMove(board, move)` of gameLogic.js: relocate the piece,
clear the captured cells, then promote a pawn sitting on its back rank
(the promotion re-reads the landing cell after the removals, exactly as
the source does). -/
def applyMove (bd : Board) (m : Move) : Board :=
  let piece := getCell bd m.fromPos.1 m.fromPos.2
  let b1 := setCell (setCell bd m.toPos piece) m.fromPos Cell.e
  let b2 := m.capturedPieces.foldl (fun bb cap => setCell bb cap Cell.e) b1
  let p2 := getCell b2 m.toPos.1 m.toPos.2
  if (p2 = Cell.w ∧ m.toPos.1 = 0) ∨ (p2 = Cell.b ∧ m.toPos.1 = 7) then
    setCell b2 m.toPos (if p2 = Cell.w then Cell.W else Cell.B)
  else b2

/-- Opposite color, the `color === 'white' ? 'black' : 'white'` ternary
used throughout the source. -/
def oppColor : Color → Color
  | Color.white => Color.black
  | Color.black => Color.white

/-- Portuguese color name used in the reason strings. -/
def colorName : Color → String
  | Color.white => "white"
  | Color.black => "black"

/-- Result object of `checkWinCondition` when the game is over. -/
structure WinResult where
  isFinished : Bool
  winner : Color
  reason : String
deriving DecidableEq, Repr

/-- The piece-existence scan at the top of `checkWinCondition` (the nested
loops with early `break` are equivalent to `any` over the squares). -/
def hasAnyPiece (bd : Board) (color : Color) : Bool :=
  allSquares.any (fun p => isPlayerPiece (getCell bd p.1 p.2) color)

/-- Mirrors `checkWinCondition(board, nextPlayerColor)` of gameLogic.js
(`none` stands for the JS `null`). -/
def checkWinCondition (bd : Board) (next : Color) : Option WinResult :=
  if ¬ hasAnyPiece bd next then
    some ⟨true, oppColor next, "O jogador " ++ colorName next ++ " não tem mais peças."⟩
  else if (findAllCaptureSequences bd next).length > 0 then none
  else if (findSimpleMoves bd next).length > 0 then none
  else
    some ⟨true, oppColor next, "O jogador " ++ colorName next ++ " não tem movimentos legais."⟩

/-- Total number of occupied squares on the board. -/
def pieceCount (bd : Board) : Nat :=
  allSquares.countP (fun p => decide (getCell bd p.1 p.2 ≠ Cell.e))

/-- Match status enum of gameSchema in models.js:
`['waiting', 'inprogress', 'finished']`. -/
inductive GStatus
  | waiting
  | inprogress
  | finished
deriving DecidableEq, Repr

/-- One `gameHistory` entry; the source stores the move as the string
"fr,fc to tr,tc" plus the acting username — modelled structurally
(timestamps elided). -/
structure HistEntry where
  fromPos : Int × Int
  toPos : Int × Int
  player : Nat
deriving DecidableEq, Repr

/-- The Game document of models.js, with users identified by `Nat` ids and
`endTime` modelled as a set/unset flag. -/
structure GameRec where
  player1 : Nat
  player2 : Option Nat
  boardState : Board
  currentPlayer : Nat
  status : GStatus
  winner : Option Nat
  gameHistory : List HistEntry
  endTimeSet : Bool

/-- The `stats` sub-document of userSchema in models.js
(defaults: 0 wins, 0 losses, 0 draws, rank 1000). -/
structure UserStats where
  wins : Nat
  losses : Nat
  draws : Nat
  rank : Nat
deriving DecidableEq, Repr

/-- Volatile server state relevant to one match: the game record (the
`activeGames` entry), the user store, and which player sockets are
attached (`player1Ws` / `player2Ws` being non-null). -/
structure ServerState where
  game : GameRec
  users : Nat → UserStats
  p1Connected : Bool
  p2Connected : Bool

/-- Kinds of outbound websocket messages the `make_move` handler can emit. -/
inductive OutKind
  | errNotYourTurn
  | errInvalidMove
  | errInternal
  | gameUpdate
deriving DecidableEq, Repr

/-- One outbound message and its recipient. -/
structure OutMsg where
  recipient : Nat
  kind : OutKind
deriving DecidableEq, Repr

/-- The move claim `data.move` sent by a client: a path (used against
capture sequences) and from/to squares (used against simple moves and for
the history entry). -/
structure MoveClaim where
  path : List (Int × Int)
  fromPos : Int × Int
  toPos : Int × Int
deriving DecidableEq, Repr

/-- Color derivation of the `make_move` handler:
`game.player1._id.equals(ws.userId) ? 'white' : 'black'`. -/
def playerColorOf (g : GameRec) (sender : Nat) : Color :=
  if g.player1 = sender then Color.white else Color.black

/-- Move-validation of the `make_move` handler (server.js): when capture
sequences exist the claim must match one of them by its full path (the
source compares the "r,c->r,c->..." join of both paths, which on these
coordinates is exactly list equality); otherwise it must match a simple
move by from/to.  Returns the `moveDetails` the handler builds, or `none`
when the claim is rejected as invalid. -/
def matchClaim (bd : Board) (color : Color) (mv : MoveClaim) : Option Move :=
  let possibleCaptures := findAllCaptureSequences bd color
  if possibleCaptures.length > 0 then
    (possibleCaptures.find? (fun vc => decide (vc.path = mv.path))).map
      (fun vc => ⟨vc.path.headD (0, 0), vc.path.getLastD (0, 0), vc.capturedPieces⟩)
  else
    ((findSimpleMoves bd color).find?
      (fun sm => decide (sm.fromPos = mv.fromPos ∧ sm.toPos = mv.toPos))).map
      (fun sm => ⟨sm.fromPos, sm.toPos, []⟩)

/-- The `case 'make_move'` branch of the game websocket handler in
server.js, including the seat check that precedes the switch (a sender on
neither seat is dropped silently; a match without player2 makes the JS
seat check throw, which the surrounding catch turns into an internal-error
reply to the sender).  Persistence (`save`) and the re-populated broadcast
fetch are elided; the broadcast goes to each attached player socket. -/
def handleMakeMove (st : ServerState) (sender : Nat) (mv : MoveClaim) :
    ServerState × List OutMsg :=
  match st.game.player2 with
  | none => (st, [⟨sender, OutKind.errInternal⟩])
  | some p2 =>
    if sender ≠ st.game.player1 ∧ sender ≠ p2 then (st, [])
    else if st.game.currentPlayer ≠ sender then (st, [⟨sender, OutKind.errNotYourTurn⟩])
    else
      let playerColor := playerColorOf st.game sender
      match matchClaim st.game.boardState playerColor mv with
      | none => (st, [⟨sender, OutKind.errInvalidMove⟩])
      | some md =>
        let newBoard := applyMove st.game.boardState md
        let nextPlayer := if st.game.player1 = sender then p2 else st.game.player1
        let winCond := checkWinCondition newBoard (oppColor playerColor)
        let g1 : GameRec := { st.game with
          boardState := newBoard
          gameHistory := st.game.gameHistory ++ [⟨mv.fromPos, mv.toPos, sender⟩]
          currentPlayer := nextPlayer }
        let g2 : GameRec :=
          match winCond with
          | some wc =>
            if wc.isFinished then
              { g1 with
                status := GStatus.finished
                winner := some (if wc.winner = Color.white then st.game.player1 else p2)
                endTimeSet := true }
            else g1
          | none => g1
        let msgs :=
          (if st.p1Connected then [⟨st.game.player1, OutKind.gameUpdate⟩] else []) ++
          (if st.p2Connected then [⟨p2, OutKind.gameUpdate⟩] else [])
        ({ st with game := g2 }, msgs)

/-- Game creation in the `/api/game/find` route of server.js:
`new Game({ player1: userId, currentPlayer: userId, boardState:
createInitialBoard(), status: 'waiting' })`. -/
def createGame (uid : Nat) : GameRec :=
  { player1 := uid
    player2 := none
    boardState := createInitialBoard
    currentPlayer := uid
    status := GStatus.waiting
    winner := none
    gameHistory := []
    endTimeSet := false }

/-- Join branch of `/api/game/find`: `game.player2 = userId;
game.status = 'inprogress'` on a game found in status 'waiting'. -/
def joinGame (g : GameRec) (uid : Nat) : GameRec :=
  { g with player2 := some uid, status := GStatus.inprogress }

/-- The `/api/game/find` route: find a waiting game of another creator and
join it, otherwise create a fresh waiting game (the Mongo `findOne` is the
first match in the stored list). -/
def gameFind (games : List GameRec) (uid : Nat) : GameRec :=
  match games.find? (fun g => decide (g.status = GStatus.waiting ∧ g.player1 ≠ uid)) with
  | some g => joinGame g uid
  | none => createGame uid

/-- Scenario board of the spec: black pawn at (2,3), white pawn at (3,4),
empty at (4,5). -/
def pb : Board := boardOf [(((2 : Int), (3 : Int)), Cell.b), (((3 : Int), (4 : Int)), Cell.w)]

/-- Board with a white king at (0,0) and a lone black pawn at (2,2); the
whole diagonal beyond the pawn — (3,3), (4,4), (5,5), (6,6), (7,7) — is
empty. -/
def kb : Board := boardOf [(((0 : Int), (0 : Int)), Cell.W), (((2 : Int), (2 : Int)), Cell.b)]

/-- Board where white's capture (5,4) → (3,2) over (4,3) removes black's
last piece. -/
def bC : Board := boardOf [(((5 : Int), (4 : Int)), Cell.w), (((4 : Int), (3 : Int)), Cell.b)]

/-- Board with a single white pawn at (1,2), one step from its promotion
row. -/
def bP : Board := boardOf [(((1 : Int), (2 : Int)), Cell.w)]

/-- An in-progress match on `bC`: players 1 (white) and 2 (black), player 1
to move, both sockets attached, all users on default stats. -/
def stC : ServerState :=
  { game :=
    { player1 := 1
      player2 := some 2
      boardState := bC
      currentPlayer := 1
      status := GStatus.inprogress
      winner := none
      gameHistory := []
      endTimeSet := false }
    users := fun _ => ⟨0, 0, 0, 1000⟩
    p1Connected := true
    p2Connected := true }

/-- The winning capture claim for white on `bC`. -/
def mvC : MoveClaim := ⟨[(5, 4), (3, 2)], (5, 4), (3, 2)⟩

/-- Membership in the square list coincides with the source's bounds check. -/
theorem mem_allSquares (r c : Int) : ((r, c) ∈ allSquares) ↔ isWithinBoard r c = true := by
  constructor
  · intro h
    unfold allSquares at h
    rw [List.mem_flatMap] at h
    obtain ⟨a, ha, h2⟩ := h
    rw [List.mem_map] at h2
    obtain ⟨b, hb, h3⟩ := h2
    rw [List.mem_range] at ha hb
    rw [Prod.mk.injEq] at h3
    obtain ⟨h4, h5⟩ := h3
    simp only [Int.ofNat_eq_natCast] at h4 h5
    simp only [isWithinBoard, decide_eq_true_eq]
    omega
  · intro h
    simp only [isWithinBoard, decide_eq_true_eq] at h
    unfold allSquares
    rw [List.mem_flatMap]
    refine ⟨r.toNat, ?_, ?_⟩
    · rw [List.mem_range]; omega
    · rw [List.mem_map]
      refine ⟨c.toNat, ?_, ?_⟩
      · rw [List.mem_range]; omega
      · rw [Prod.mk.injEq]
        simp only [Int.ofNat_eq_natCast]
        constructor <;> omega

/-- The square list has no duplicates. -/
theorem allSquares_nodup : allSquares.Nodup := by decide

/-- Reading a board after one write. -/
theorem getCell_setCell (bd : Board) (p : Int × Int) (v : Cell) (r c : Int) :
    getCell (setCell bd p v) r c = if (r, c) = p then v else getCell bd r c := by
  unfold getCell setCell
  by_cases h : r = p.1 ∧ c = p.2
  · simp [h, Prod.ext_iff]
  · simp [Prod.ext_iff, h]

/-- A write that preserves occupancy preserves the occupied-square count. -/
theorem countP_setCell_keep (bd : Board) (q : Int × Int) (v : Cell)
    (l : List (Int × Int)) (h : (getCell bd q.1 q.2 ≠ Cell.e) ↔ (v ≠ Cell.e)) :
    l.countP (fun p => decide (getCell (setCell bd q v) p.1 p.2 ≠ Cell.e)) =
    l.countP (fun p => decide (getCell bd p.1 p.2 ≠ Cell.e)) := by
  apply List.countP_congr
  intro x _
  obtain ⟨x1, x2⟩ := x
  simp only [decide_eq_true_eq]
  rw [getCell_setCell]
  by_cases hq : ((x1, x2) : Int × Int) = q
  · rw [if_pos hq]
    rw [show q = ((x1, x2) : Int × Int) from hq.symm] at h
    exact h.symm
  · rw [if_neg hq]

/-- Emptying an occupied listed square drops the count by one. -/
theorem countP_setCell_empty : ∀ (l : List (Int × Int)), l.Nodup →
    ∀ (bd : Board) (q : Int × Int), q ∈ l → getCell bd q.1 q.2 ≠ Cell.e →
    l.countP (fun p => decide (getCell (setCell bd q Cell.e) p.1 p.2 ≠ Cell.e)) + 1 =
    l.countP (fun p => decide (getCell bd p.1 p.2 ≠ Cell.e)) := by
  intro l
  induction l with
  | nil => intro _ bd q hq; exact absurd hq (List.not_mem_nil q)
  | cons a t ih =>
    intro hnd bd q hq hocc
    rw [List.nodup_cons] at hnd
    simp only [List.countP_cons]
    rcases List.mem_cons.mp hq with rfl | hqt
    · have ht : t.countP (fun p => decide (getCell (setCell bd q Cell.e) p.1 p.2 ≠ Cell.e)) =
          t.countP (fun p => decide (getCell bd p.1 p.2 ≠ Cell.e)) := by
        apply List.countP_congr
        intro x hx
        obtain ⟨x1, x2⟩ := x
        have hxq : ((x1, x2) : Int × Int) ≠ q := fun hh => hnd.1 (hh ▸ hx)
        simp only [decide_eq_true_eq, getCell_setCell, if_neg hxq]
      rw [ht]
      simp [getCell_setCell, hocc]
    · have hq_ne_a : q ≠ a := fun hh => hnd.1 (hh ▸ hqt)
      have ha : getCell (setCell bd q Cell.e) a.1 a.2 = getCell bd a.1 a.2 := by
        obtain ⟨a1, a2⟩ := a
        rw [getCell_setCell, if_neg (fun hh => hq_ne_a hh.symm)]
      rw [ha, ← ih hnd.2 bd q hqt hocc]
      omega

/-- Filling an empty listed square raises the count by one. -/
theorem countP_setCell_fill : ∀ (l : List (Int × Int)), l.Nodup →
    ∀ (bd : Board) (q : Int × Int) (v : Cell), q ∈ l → getCell bd q.1 q.2 = Cell.e →
    v ≠ Cell.e →
    l.countP (fun p => decide (getCell (setCell bd q v) p.1 p.2 ≠ Cell.e)) =
    l.countP (fun p => decide (getCell bd p.1 p.2 ≠ Cell.e)) + 1 := by
  intro l
  induction l with
  | nil => intro _ bd q v hq; exact absurd hq (List.not_mem_nil q)
  | cons a t ih =>
    intro hnd bd q v hq hemp hv
    rw [List.nodup_cons] at hnd
    simp only [List.countP_cons]
    rcases List.mem_cons.mp hq with rfl | hqt
    · have ht : t.countP (fun p => decide (getCell (setCell bd q v) p.1 p.2 ≠ Cell.e)) =
          t.countP (fun p => decide (getCell bd p.1 p.2 ≠ Cell.e)) := by
        apply List.countP_congr
        intro x hx
        obtain ⟨x1, x2⟩ := x
        have hxq : ((x1, x2) : Int × Int) ≠ q := fun hh => hnd.1 (hh ▸ hx)
        simp only [decide_eq_true_eq, getCell_setCell, if_neg hxq]
      rw [ht]
      simp [getCell_setCell, hemp, hv]
    · have hq_ne_a : q ≠ a := fun hh => hnd.1 (hh ▸ hqt)
      have ha : getCell (setCell bd q v) a.1 a.2 = getCell bd a.1 a.2 := by
        obtain ⟨a1, a2⟩ := a
        rw [getCell_setCell, if_neg (fun hh => hq_ne_a hh.symm)]
      rw [ha, ih hnd.2 bd q v hqt hemp hv]
      omega

/-- The accumulator of `collectSequences` computes the running maximum of
the positive capture counts, i.e. the `maxCaptures` variable of the
source. -/
theorem collectSequences_fst : ∀ (l : List CapSeq) (m : Nat) (acc : List CapSeq),
    (collectSequences l m acc).1 =
      l.foldl (fun a s => max a s.capturedPieces.length) m := by
  intro l
  induction l with
  | nil => intro m acc; rfl
  | cons s rest ih =>
    intro m acc
    simp only [collectSequences, List.foldl_cons]
    by_cases h1 : s.capturedPieces.length > 0
    · by_cases h2 : s.capturedPieces.length > m
      · rw [if_pos h1, if_pos h2, ih]
        congr 1
        omega
      · by_cases h3 : s.capturedPieces.length = m
        · rw [if_pos h1, if_neg h2, if_pos h3, ih]
          congr 1
          omega
        · rw [if_pos h1, if_neg h2, if_neg h3, ih]
          congr 1
          omega
    · rw [if_neg h1, ih]
      congr 1
      omega

/-- Every sequence kept by `collectSequences` comes from the accumulator or
from the input list. -/
theorem collectSequences_subset : ∀ (l : List CapSeq) (m : Nat) (acc : List CapSeq)
    (s : CapSeq), s ∈ (collectSequences l m acc).2 → s ∈ acc ∨ s ∈ l := by
  intro l
  induction l with
  | nil =>
    intro m acc s h
    exact Or.inl h
  | cons t rest ih =>
    intro m acc s h
    simp only [collectSequences] at h
    by_cases h1 : t.capturedPieces.length > 0
    · by_cases h2 : t.capturedPieces.length > m
      · rw [if_pos h1, if_pos h2] at h
        rcases ih _ _ _ h with hl | hr
        · rcases List.mem_singleton.mp hl with rfl
          exact Or.inr (List.mem_cons_self _ _)
        · exact Or.inr (List.mem_cons_of_mem _ hr)
      · by_cases h3 : t.capturedPieces.length = m
        · rw [if_pos h1, if_neg h2, if_pos h3] at h
          rcases ih _ _ _ h with hl | hr
          · rcases List.mem_append.mp hl with ha | hb
            · exact Or.inl ha
            · rcases List.mem_singleton.mp hb with rfl
              exact Or.inr (List.mem_cons_self _ _)
          · exact Or.inr (List.mem_cons_of_mem _ hr)
        · rw [if_pos h1, if_neg h2, if_neg h3] at h
          rcases ih _ _ _ h with hl | hr
          · exact Or.inl hl
          · exact Or.inr (List.mem_cons_of_mem _ hr)
    · rw [if_neg h1] at h
      rcases ih _ _ _ h with hl | hr
      · exact Or.inl hl
      · exact Or.inr (List.mem_cons_of_mem _ hr)

/-- The seed of the running maximum never exceeds its final value. -/
theorem foldl_max_le_self : ∀ (l : List CapSeq) (a : Nat),
    a ≤ l.foldl (fun x s => max x s.capturedPieces.length) a := by
  intro l
  induction l with
  | nil => intro a; exact Nat.le_refl a
  | cons t rest ih =>
    intro a
    simp only [List.foldl_cons]
    exact le_trans (Nat.le_max_left _ _) (ih _)

/-- Every list element's capture count is bounded by the running maximum. -/
theorem foldl_max_bounds : ∀ (l : List CapSeq) (a : Nat) (t : CapSeq), t ∈ l →
    t.capturedPieces.length ≤ l.foldl (fun x s => max x s.capturedPieces.length) a := by
  intro l
  induction l with
  | nil => intro a t ht; exact absurd ht (List.not_mem_nil t)
  | cons u rest ih =>
    intro a t ht
    simp only [List.foldl_cons]
    rcases List.mem_cons.mp ht with rfl | hr
    · exact le_trans (Nat.le_max_right _ _) (foldl_max_le_self _ _)
    · exact ih _ _ hr

/-- Every sequence returned by `findAllCaptureSequences` is one of the raw
candidate sequences gathered from the per-piece search. -/
theorem mem_findAll_mem_candidates (bd : Board) (color : Color) (s : CapSeq)
    (hs : s ∈ findAllCaptureSequences bd color) : s ∈ candidateSeqs bd color := by
  unfold findAllCaptureSequences at hs
  rw [List.mem_filter] at hs
  rcases collectSequences_subset _ _ _ _ hs.1 with hl | hr
  · exact absurd hl (List.not_mem_nil s)
  · exact hr

/-- Chain invariant of the per-piece capture search: starting from a
duplicate-free `capturedSoFar`, every sequence it returns has a
duplicate-free captured list (the `capturedSoFar.some(...)` guard skips
any square already captured in the chain). -/
theorem nodup_findCaptureSequencesForPiece : ∀ (fuel : Nat) (bd : Board) (r c : Int)
    (piece : Cell) (path captured : List (Int × Int)), captured.Nodup →
    ∀ s ∈ findCaptureSequencesForPiece fuel bd r c piece path captured,
      s.capturedPieces.Nodup := by
  intro fuel
  induction fuel with
  | zero =>
    intro bd r c piece path captured hnd s hs
    simp only [findCaptureSequencesForPiece] at hs
    split at hs
    · rw [List.mem_singleton] at hs
      rw [hs]
      exact hnd
    · exact absurd hs (List.not_mem_nil s)
  | succ n ih =>
    intro bd r c piece path captured hnd s hs
    simp only [findCaptureSequencesForPiece] at hs
    split at hs
    all_goals split at hs
    all_goals split at hs
    all_goals
      first
        | (rw [List.mem_singleton] at hs
           rw [hs]
           exact hnd)
        | (rw [List.mem_flatMap] at hs
           obtain ⟨cap, hcapmem, hs⟩ := hs
           by_cases hdup : captured.contains (cap.capR, cap.capC) = true
           · rw [if_pos hdup] at hs
             exact absurd hs (List.not_mem_nil s)
           · rw [if_neg hdup] at hs
             have hnotmem : (cap.capR, cap.capC) ∉ captured := by
               intro hmem
               exact hdup (List.elem_eq_true_of_mem hmem)
             have hnd2 : (captured ++ [(cap.capR, cap.capC)]).Nodup := by
               rw [List.nodup_append]
               refine ⟨hnd, List.nodup_singleton _, ?_⟩
               intro x hx hx2
               rw [List.mem_singleton] at hx2
               rw [hx2] at hx
               exact hnotmem hx
             split at hs
             · rw [List.mem_singleton] at hs
               rw [hs]
               exact hnd2
             · exact ih _ _ _ _ _ _ hnd2 s hs)

/-- C1: for every board and color, every sequence returned by
`findAllCaptureSequences` is one of the capture sequences found for that
color (across all source pieces) and its captured-cell count dominates the
count of every sequence found, i.e. it equals the global maximum; no
shorter capture chain is ever returned (majority rule). -/
theorem findAll_majority_rule (bd : Board) (color : Color) (s : CapSeq)
    (hs : s ∈ findAllCaptureSequences bd color) :
    s ∈ candidateSeqs bd color ∧
      ∀ t ∈ candidateSeqs bd color,
        t.capturedPieces.length ≤ s.capturedPieces.length := by
  refine ⟨mem_findAll_mem_candidates bd color s hs, ?_⟩
  intro t ht
  unfold findAllCaptureSequences at hs
  rw [List.mem_filter, decide_eq_true_eq] at hs
  rw [hs.2, collectSequences_fst]
  exact foldl_max_bounds _ _ _ ht

/-- Witness for the majority rule on the spec's scenario board: black pawn
at (2,3), white pawn at (3,4): the single returned sequence captures one
piece and dominates all candidates. -/
theorem findAll_majority_rule_witness :
    (⟨[(2, 3), (4, 5)], [(3, 4)]⟩ : CapSeq) ∈ findAllCaptureSequences pb Color.black ∧
    (⟨[(2, 3), (4, 5)], [(3, 4)]⟩ : CapSeq) ∈ candidateSeqs pb Color.black ∧
    ∀ t ∈ candidateSeqs pb Color.black,
      t.capturedPieces.length ≤
        (⟨[(2, 3), (4, 5)], [(3, 4)]⟩ : CapSeq).capturedPieces.length :=
  have h : (⟨[(2, 3), (4, 5)], [(3, 4)]⟩ : CapSeq) ∈
      findAllCaptureSequences pb Color.black := by decide
  ⟨h, findAll_majority_rule pb Color.black _ h⟩

/-- C9: for every board and color, every capture sequence returned by
`findAllCaptureSequences` has pairwise-distinct captured squares: no
square captured earlier in the chain is captured again later. -/
theorem findAll_captured_nodup (bd : Board) (color : Color) (s : CapSeq)
    (hs : s ∈ findAllCaptureSequences bd color) : s.capturedPieces.Nodup := by
  have hcand := mem_findAll_mem_candidates bd color s hs
  unfold candidateSeqs at hcand
  rw [List.mem_flatMap] at hcand
  obtain ⟨p, hp, hmem⟩ := hcand
  by_cases hpl : isPlayerPiece (getCell bd p.1 p.2) color = true
  · rw [if_pos hpl] at hmem
    exact nodup_findCaptureSequencesForPiece 64 bd p.1 p.2 _ [p] [] List.nodup_nil s hmem
  · rw [if_neg hpl] at hmem
    exact absurd hmem (List.not_mem_nil s)

/-- Witness for distinct captured squares on the scenario board. -/
theorem findAll_captured_nodup_witness :
    (⟨[(2, 3), (4, 5)], [(3, 4)]⟩ : CapSeq) ∈ findAllCaptureSequences pb Color.black ∧
    ((⟨[(2, 3), (4, 5)], [(3, 4)]⟩ : CapSeq)).capturedPieces.Nodup :=
  have h : (⟨[(2, 3), (4, 5)], [(3, 4)]⟩ : CapSeq) ∈
      findAllCaptureSequences pb Color.black := by decide
  ⟨h, findAll_captured_nodup pb Color.black _ h⟩

/-- C4 (amended): every capture option the king scan generates lands on
the square immediately beyond the captured piece in the scanned direction
— farther empty squares along the run are never offered as landings. -/
theorem king_capture_lands_just_beyond (bd : Board) (myColor : Color)
    (r c dr dc : Int) :
    ∀ (steps : Nat) (i : Int) (clear : Bool),
      ∀ cap ∈ kingScanAux bd myColor r c dr dc steps i clear,
        cap.landR = cap.capR + dr ∧ cap.landC = cap.capC + dc := by
  intro steps
  induction steps with
  | zero =>
    intro i clear cap h
    exact absurd h (List.not_mem_nil cap)
  | succ n ih =>
    intro i clear cap h
    simp only [kingScanAux] at h
    split at h
    · exact absurd h (List.not_mem_nil cap)
    · split at h
      · rw [List.mem_append] at h
        rcases h with h | h
        · split at h
          · rw [List.mem_singleton] at h
            rw [h]
            exact ⟨rfl, rfl⟩
          · exact absurd h (List.not_mem_nil cap)
        · exact ih _ _ _ h
      · exact ih _ _ _ h

/-- Witness: on the king board the scan along (+1,+1) yields exactly the
capture of (2,2) landing at (3,3) = (2,2) + (1,1). -/
theorem king_capture_lands_just_beyond_witness :
    (⟨2, 2, 3, 3⟩ : Capture) ∈ kingScanAux kb Color.white 0 0 1 1 7 1 true ∧
    ((3 : Int) = 2 + 1 ∧ (3 : Int) = 2 + 1) :=
  ⟨by decide,
   king_capture_lands_just_beyond kb Color.white 0 0 1 1 7 1 true ⟨2, 2, 3, 3⟩ (by decide)⟩

/-- C4 counterexample: on `kb` the white king at (0,0) faces a single
black pawn at (2,2) on a fully clear diagonal; (4,4) is an empty in-board
square past that first enemy piece, and a 1-capture chain landing there
would tie the global maximum (which is 1), yet `findAllCaptureSequences`
offers only the landing immediately beyond the pawn, (3,3); no returned
sequence ends at (4,4). -/
theorem king_capture_far_landing_missing_cex :
    getCell kb 0 0 = Cell.W ∧ getCell kb 2 2 = Cell.b ∧
    getCell kb 1 1 = Cell.e ∧ getCell kb 3 3 = Cell.e ∧ getCell kb 4 4 = Cell.e ∧
    isWithinBoard 4 4 = true ∧
    findAllCaptureSequences kb Color.white = [⟨[(0, 0), (3, 3)], [(2, 2)]⟩] ∧
    (findAllCaptureSequences kb Color.white).all
      (fun s => decide (s.path.getLastD (0, 0) ≠ (4, 4))) = true := by
  decide

/-- Wrapper of `countP_setCell_fill` phrased with `pieceCount`. -/
theorem pieceCount_setCell_fill (bd : Board) (q : Int × Int) (v : Cell)
    (hq : q ∈ allSquares) (he : getCell bd q.1 q.2 = Cell.e) (hv : v ≠ Cell.e) :
    pieceCount (setCell bd q v) = pieceCount bd + 1 :=
  countP_setCell_fill allSquares allSquares_nodup bd q v hq he hv

/-- Wrapper of `countP_setCell_empty` phrased with `pieceCount`. -/
theorem pieceCount_setCell_empty (bd : Board) (q : Int × Int)
    (hq : q ∈ allSquares) (ho : getCell bd q.1 q.2 ≠ Cell.e) :
    pieceCount (setCell bd q Cell.e) + 1 = pieceCount bd :=
  countP_setCell_empty allSquares allSquares_nodup bd q hq ho

/-- Wrapper of `countP_setCell_keep` phrased with `pieceCount`. -/
theorem pieceCount_setCell_keep (bd : Board) (q : Int × Int) (v : Cell)
    (h : (getCell bd q.1 q.2 ≠ Cell.e) ↔ (v ≠ Cell.e)) :
    pieceCount (setCell bd q v) = pieceCount bd :=
  countP_setCell_keep bd q v allSquares h

/-- Clearing a list of squares leaves any other square untouched. -/
theorem getCell_foldl_clear : ∀ (caps : List (Int × Int)) (bd : Board) (q : Int × Int),
    q ∉ caps →
    getCell (caps.foldl (fun bb cap => setCell bb cap Cell.e) bd) q.1 q.2 =
    getCell bd q.1 q.2 := by
  intro caps
  induction caps with
  | nil => intro bd q _; rfl
  | cons a t ih =>
    intro bd q h
    rw [List.mem_cons] at h
    push_neg at h
    rw [List.foldl_cons, ih _ _ h.2]
    obtain ⟨q1, q2⟩ := q
    rw [getCell_setCell, if_neg h.1]

/-- Clearing a duplicate-free list of occupied in-board squares drops the
piece count by the length of the list. -/
theorem pieceCount_foldl_clear : ∀ (caps : List (Int × Int)) (bd : Board), caps.Nodup →
    (∀ q ∈ caps, q ∈ allSquares ∧ getCell bd q.1 q.2 ≠ Cell.e) →
    pieceCount (caps.foldl (fun bb cap => setCell bb cap Cell.e) bd) + caps.length =
    pieceCount bd := by
  intro caps
  induction caps with
  | nil => intro bd _ _; rfl
  | cons a t ih =>
    intro bd hnd hocc
    rw [List.foldl_cons]
    rw [List.nodup_cons] at hnd
    have h1 := hocc a (List.mem_cons_self a t)
    have h2 : ∀ q ∈ t, q ∈ allSquares ∧ getCell (setCell bd a Cell.e) q.1 q.2 ≠ Cell.e := by
      intro q hq
      obtain ⟨q1, q2⟩ := q
      have hqa : ((q1, q2) : Int × Int) ≠ a := fun hh => hnd.1 (hh ▸ hq)
      have hm := hocc _ (List.mem_cons_of_mem a hq)
      refine ⟨hm.1, ?_⟩
      rw [getCell_setCell, if_neg hqa]
      exact hm.2
    have h3 := ih (setCell bd a Cell.e) hnd.2 h2
    have h4 := pieceCount_setCell_empty bd a h1.1 h1.2
    simp only [List.length_cons]
    omega

/-- After relocation and capture removal, the landing square holds exactly
the piece read from the source square (the value `applyMove` re-reads for
its promotion check), provided the move does not capture its own landing
square and does not land on its own origin. -/
theorem applyMove_pre_promotion_cell (bd : Board) (m : Move)
    (hne : m.fromPos ≠ m.toPos) (hto : m.toPos ∉ m.capturedPieces) :
    getCell (m.capturedPieces.foldl (fun bb cap => setCell bb cap Cell.e)
      (setCell (setCell bd m.toPos (getCell bd m.fromPos.1 m.fromPos.2))
        m.fromPos Cell.e))
      m.toPos.1 m.toPos.2 = getCell bd m.fromPos.1 m.fromPos.2 := by
  rw [getCell_foldl_clear _ _ _ hto]
  have heta : ((m.toPos.1, m.toPos.2) : Int × Int) = m.toPos := rfl
  rw [getCell_setCell, heta, if_neg (fun hh => hne hh.symm), getCell_setCell, heta,
    if_pos rfl]

/-- C7: `applyMove` promotes a white pawn landing on row 0 and a black pawn
landing on row 7 to the corresponding king, and preserves the piece in
every other landing; the check runs after relocation, on the final
position and the piece's basic type, exactly as stated. -/
theorem applyMove_promotion (bd : Board) (m : Move)
    (hne : m.fromPos ≠ m.toPos) (hto : m.toPos ∉ m.capturedPieces) :
    (getCell bd m.fromPos.1 m.fromPos.2 = Cell.w ∧ m.toPos.1 = 0 →
       getCell (applyMove bd m) m.toPos.1 m.toPos.2 = Cell.W) ∧
    (getCell bd m.fromPos.1 m.fromPos.2 = Cell.b ∧ m.toPos.1 = 7 →
       getCell (applyMove bd m) m.toPos.1 m.toPos.2 = Cell.B) ∧
    (¬ ((getCell bd m.fromPos.1 m.fromPos.2 = Cell.w ∧ m.toPos.1 = 0) ∨
        (getCell bd m.fromPos.1 m.fromPos.2 = Cell.b ∧ m.toPos.1 = 7)) →
       getCell (applyMove bd m) m.toPos.1 m.toPos.2 =
         getCell bd m.fromPos.1 m.fromPos.2) := by
  have hat := applyMove_pre_promotion_cell bd m hne hto
  have heta : ((m.toPos.1, m.toPos.2) : Int × Int) = m.toPos := rfl
  simp only [applyMove]
  rw [hat]
  refine ⟨?_, ?_, ?_⟩
  · rintro ⟨hw, h0⟩
    rw [if_pos (Or.inl ⟨hw, h0⟩), getCell_setCell, heta, if_pos rfl, if_pos hw]
  · rintro ⟨hb, h7⟩
    have hnw : ¬ (getCell bd m.fromPos.1 m.fromPos.2 = Cell.w) := by
      rw [hb]
      intro hh
      exact Cell.noConfusion hh
    rw [if_pos (Or.inr ⟨hb, h7⟩), getCell_setCell, heta, if_pos rfl, if_neg hnw]
  · intro hnp
    rw [if_neg hnp]
    exact hat

/-- Witness: a lone white pawn moving (1,2) → (0,3) is promoted to a white
king on the promotion row. -/
theorem applyMove_promotion_witness :
    getCell bP 1 2 = Cell.w ∧
    getCell (applyMove bP ⟨(1, 2), (0, 3), []⟩) 0 3 = Cell.W :=
  ⟨by decide,
   (applyMove_promotion bP ⟨(1, 2), (0, 3), []⟩ (by decide) (by decide)).1 ⟨by decide, rfl⟩⟩

/-- C6: for a move whose source square is occupied, whose destination
square is empty, and whose captured cells form a set of occupied squares
distinct from source and destination, `applyMove` changes the total piece
count by exactly the number of captured cells — in particular a move with
an empty captured list leaves the count unchanged (length 0), and a move
with N captured cells decreases it by exactly N. -/
theorem applyMove_piece_count (bd : Board) (m : Move)
    (hfw : isWithinBoard m.fromPos.1 m.fromPos.2 = true)
    (htw : isWithinBoard m.toPos.1 m.toPos.2 = true)
    (hocc : getCell bd m.fromPos.1 m.fromPos.2 ≠ Cell.e)
    (hdst : getCell bd m.toPos.1 m.toPos.2 = Cell.e)
    (hnd : m.capturedPieces.Nodup)
    (hcap : ∀ q ∈ m.capturedPieces, isWithinBoard q.1 q.2 = true ∧
      getCell bd q.1 q.2 ≠ Cell.e ∧ q ≠ m.fromPos ∧ q ≠ m.toPos) :
    pieceCount (applyMove bd m) + m.capturedPieces.length = pieceCount bd := by
  have hfeta : ((m.fromPos.1, m.fromPos.2) : Int × Int) = m.fromPos := rfl
  have hteta : ((m.toPos.1, m.toPos.2) : Int × Int) = m.toPos := rfl
  have hne : m.fromPos ≠ m.toPos := by
    intro hh
    rw [← hfeta, hh] at hocc
    exact hocc hdst
  have hto : m.toPos ∉ m.capturedPieces := fun hmem => (hcap _ hmem).2.2.2 rfl
  have hat := applyMove_pre_promotion_cell bd m hne hto
  have hc1 : pieceCount (setCell bd m.toPos (getCell bd m.fromPos.1 m.fromPos.2)) =
      pieceCount bd + 1 :=
    pieceCount_setCell_fill bd m.toPos _ ((mem_allSquares _ _).mpr htw) hdst hocc
  have hc2 : pieceCount (setCell (setCell bd m.toPos
      (getCell bd m.fromPos.1 m.fromPos.2)) m.fromPos Cell.e) + 1 =
      pieceCount (setCell bd m.toPos (getCell bd m.fromPos.1 m.fromPos.2)) := by
    apply pieceCount_setCell_empty _ _ ((mem_allSquares _ _).mpr hfw)
    rw [getCell_setCell, hfeta, if_neg hne]
    exact hocc
  have hc3 : pieceCount (m.capturedPieces.foldl (fun bb cap => setCell bb cap Cell.e)
      (setCell (setCell bd m.toPos (getCell bd m.fromPos.1 m.fromPos.2))
        m.fromPos Cell.e)) + m.capturedPieces.length =
      pieceCount (setCell (setCell bd m.toPos
        (getCell bd m.fromPos.1 m.fromPos.2)) m.fromPos Cell.e) := by
    apply pieceCount_foldl_clear _ _ hnd
    intro q hq
    obtain ⟨hqw, hqocc, hqf, hqt⟩ := hcap q hq
    refine ⟨(mem_allSquares _ _).mpr hqw, ?_⟩
    have hqeta : ((q.1, q.2) : Int × Int) = q := rfl
    rw [getCell_setCell, hqeta, if_neg hqf, getCell_setCell, hqeta, if_neg hqt]
    exact hqocc
  simp only [applyMove]
  rw [hat]
  split
  · rw [pieceCount_setCell_keep]
    · omega
    · rw [hat]
      constructor
      · intro _
        split
        · intro hh
          exact Cell.noConfusion hh
        · intro hh
          exact Cell.noConfusion hh
      · intro _
        exact hocc
  · omega

/-- Witness: on the scenario board the capture (2,3) → (4,5) over (3,4)
drops the piece count from 2 to 1 (by exactly the one captured cell). -/
theorem applyMove_piece_count_witness :
    pieceCount pb = 2 ∧
    pieceCount (applyMove pb ⟨(2, 3), (4, 5), [(3, 4)]⟩) +
      (⟨(2, 3), (4, 5), [(3, 4)]⟩ : Move).capturedPieces.length = pieceCount pb :=
  ⟨by decide,
   applyMove_piece_count pb ⟨(2, 3), (4, 5), [(3, 4)]⟩ (by decide) (by decide)
     (by decide) (by decide) (by decide) (by decide)⟩

/-- C8: `checkWinCondition(board, color)` reports a finished game with the
opposite color as winner exactly when `color` has no pieces, or has pieces
but neither capture sequences nor simple moves; otherwise it reports the
game as not finished (`none`). -/
theorem checkWinCondition_characterization (bd : Board) (color : Color) :
    (∃ wr, checkWinCondition bd color = some wr ∧ wr.isFinished = true ∧
      wr.winner = oppColor color) ↔
    (hasAnyPiece bd color = false ∨
     (hasAnyPiece bd color = true ∧ findAllCaptureSequences bd color = [] ∧
      findSimpleMoves bd color = [])) := by
  unfold checkWinCondition
  by_cases h1 : hasAnyPiece bd color = true
  · rw [if_neg (fun hh => hh h1)]
    by_cases h2 : findAllCaptureSequences bd color = []
    · rw [if_neg (show ¬ (findAllCaptureSequences bd color).length > 0 by simp [h2])]
      by_cases h3 : findSimpleMoves bd color = []
      · rw [if_neg (show ¬ (findSimpleMoves bd color).length > 0 by simp [h3])]
        simp [h1, h2, h3]
      · rw [if_pos (List.length_pos.mpr h3)]
        simp [h1, h2, h3]
    · rw [if_pos (List.length_pos.mpr h2)]
      simp [h1, h2]
  · rw [if_pos h1]
    rw [Bool.not_eq_true] at h1
    simp [h1]

/-- C10: match creation seats the creator as player1 and as the player to
move, and the move handler derives the acting player's color as white
exactly when they are player1 — the creator plays white and moves first.
-/
theorem creator_is_player1_and_plays_white :
    ∀ uid : Nat, (createGame uid).player1 = uid ∧
      (createGame uid).currentPlayer = uid ∧
      (createGame uid).status = GStatus.waiting ∧
      ∀ (g : GameRec) (sender : Nat),
        playerColorOf g sender = Color.white ↔ sender = g.player1 := by
  intro uid
  refine ⟨rfl, rfl, rfl, ?_⟩
  intro g sender
  unfold playerColorOf
  by_cases h : g.player1 = sender
  · rw [if_pos h]
    simp [h.symm]
  · rw [if_neg h]
    constructor
    · intro hh
      exact absurd hh (fun hc => Color.noConfusion hc)
    · intro hh
      exact absurd hh.symm h

/-- C2 counterexample: a freshly created match is in status 'waiting', and
the join step of `/api/game/find` moves it directly to 'inprogress' — not
to any intermediate readiness state (the status enum has no 'readying'
value at all), refuting the claim that 'inprogress' is never entered
straight from 'waiting'. -/
theorem join_straight_to_inprogress_cex :
    (createGame 1).status = GStatus.waiting ∧
    gameFind [createGame 1] 2 = joinGame (createGame 1) 2 ∧
    (joinGame (createGame 1) 2).status = GStatus.inprogress ∧
    (joinGame (createGame 1) 2).player2 = some 2 :=
  ⟨rfl, rfl, rfl, rfl⟩

/-- C2 (amended): join, taken on a match in status 'waiting', sets player2
to the joiner and moves the status directly to 'inprogress'; there is no
'readying' status and no readiness handshake. -/
theorem join_sets_player2_and_inprogress (g : GameRec) (uid : Nat)
    (_h : g.status = GStatus.waiting) :
    (joinGame g uid).status = GStatus.inprogress ∧
    (joinGame g uid).player2 = some uid :=
  ⟨rfl, rfl⟩

/-- Witness for the amended join transition on a concrete waiting match. -/
theorem join_sets_player2_and_inprogress_witness :
    (createGame 1).status = GStatus.waiting ∧
    ((joinGame (createGame 1) 2).status = GStatus.inprogress ∧
     (joinGame (createGame 1) 2).player2 = some 2) :=
  ⟨rfl, join_sets_player2_and_inprogress (createGame 1) 2 rfl⟩

/-- C3 counterexample: white (player 1) makes the finishing capture on
`stC`; the match is settled as finished with winner player 1, yet the
winner's wins counter is not incremented and the winner's rank does not
increase (and the loser's stats are equally untouched) — the handler
performs no stats settlement at all. -/
theorem finish_no_stats_settlement_cex :
    (handleMakeMove stC 1 mvC).1.game.status = GStatus.finished ∧
    (handleMakeMove stC 1 mvC).1.game.winner = some 1 ∧
    ((handleMakeMove stC 1 mvC).1.users 1).wins = (stC.users 1).wins ∧
    ((handleMakeMove stC 1 mvC).1.users 1).rank = (stC.users 1).rank ∧
    ((handleMakeMove stC 1 mvC).1.users 2).losses = (stC.users 2).losses ∧
    ((handleMakeMove stC 1 mvC).1.users 2).rank = (stC.users 2).rank ∧
    ¬ ((handleMakeMove stC 1 mvC).1.users 1).wins = (stC.users 1).wins + 1 ∧
    ¬ (stC.users 1).rank < ((handleMakeMove stC 1 mvC).1.users 1).rank := by
  decide

/-- C3 (amended): on a normal finish the move handler only marks the game
record (status 'finished', winner, end time); it never modifies any user's
rank or win/loss counters — the user store is returned unchanged on every
path of the handler. -/
theorem handleMakeMove_users_unchanged :
    ∀ (st : ServerState) (sender : Nat) (mv : MoveClaim),
      (handleMakeMove st sender mv).1.users = st.users := by
  intro st sender mv
  unfold handleMakeMove
  dsimp only
  repeat' split
  all_goals rfl

/-- C5: a move claim from a seated player who is not the current player,
or from the current player when the claim matches neither a returned
maximal capture sequence (compared as the ordered list of visited squares)
nor a simple move when no captures exist, is rejected: the handler sends a
single error reply to the sender and leaves the whole match state
untouched, with no broadcast to the opponent. -/
theorem reject_move_leaves_state_unchanged (st : ServerState) (sender : Nat)
    (mv : MoveClaim) (p2 : Nat) (hp2 : st.game.player2 = some p2)
    (hseat : sender = st.game.player1 ∨ sender = p2) :
    (st.game.currentPlayer ≠ sender →
      handleMakeMove st sender mv = (st, [⟨sender, OutKind.errNotYourTurn⟩])) ∧
    (st.game.currentPlayer = sender →
      matchClaim st.game.boardState (playerColorOf st.game sender) mv = none →
      handleMakeMove st sender mv = (st, [⟨sender, OutKind.errInvalidMove⟩])) := by
  have hseat' : ¬ (sender ≠ st.game.player1 ∧ sender ≠ p2) := by
    intro hh
    rcases hseat with h | h
    · exact hh.1 h
    · exact hh.2 h
  constructor
  · intro hturn
    unfold handleMakeMove
    rw [hp2]
    dsimp only
    rw [if_neg hseat', if_pos hturn]
  · intro hturn hmatch
    unfold handleMakeMove
    rw [hp2]
    dsimp only
    rw [if_neg hseat', if_neg (show ¬ st.game.currentPlayer ≠ sender from fun hh => hh hturn)]
    rw [hmatch]

/-- Witness: player 2 (seated, not the current player) sending the capture
claim on `stC` is rejected with a single not-your-turn reply and an
unchanged state. -/
theorem reject_move_leaves_state_unchanged_witness :
    stC.game.player2 = some 2 ∧ ((2 : Nat) = stC.game.player1 ∨ (2 : Nat) = 2) ∧
    stC.game.currentPlayer ≠ 2 ∧
    handleMakeMove stC 2 mvC = (stC, [⟨2, OutKind.errNotYourTurn⟩]) :=
  ⟨rfl, Or.inr rfl, by decide,
   (reject_move_leaves_state_unchanged stC 2 mvC 2 rfl (Or.inr rfl)).1 (by decide)⟩
